import Mathlib

/-!
Shallow embedding of the Repository Constellation Loader & Layout from
`src/App.jsx`: the repo-fetching hook `useGithubRepos` (filter, sort,
truncate, completion handling guarded by the `alive` flag), the radial
layout computed in `RepoConstellation`, and the drag/click disambiguation
in `RepoNode`.
-/

/-- One repository record as consumed from the provider's JSON array.
Timestamps are modelled as natural numbers ordered like the dates they encode. -/
structure RepoRec where
  id : Nat
  name : String
  description : Option String
  stargazers_count : Nat
  fork : Bool
  pushed_at : Nat
  html_url : String
deriving DecidableEq, Repr

/-- The sort relation realised by the comparator
`(a, b) => new Date(b.pushed_at) - new Date(a.pushed_at)`:
`a` may precede `b` exactly when `b`'s pushed timestamp is at most `a`'s
(descending by `pushed_at`). -/
def pushedDesc (a b : RepoRec) : Prop := b.pushed_at ≤ a.pushed_at

instance : DecidableRel pushedDesc := fun a b => Nat.decLe b.pushed_at a.pushed_at

instance : IsTotal RepoRec pushedDesc :=
  ⟨fun a b => (Nat.le_total a.pushed_at b.pushed_at).symm⟩

instance : IsTrans RepoRec pushedDesc :=
  ⟨fun _ _ _ hab hbc => le_trans hbc hab⟩

/-- The pure processing pipeline of `useGithubRepos`:
`data.filter((r) => !r.fork).sort((a, b) => new Date(b.pushed_at) - new Date(a.pushed_at)).slice(0, count)`.
JavaScript's `Array.prototype.sort` is a stable sort (ES2019), so it is
embedded as the stable `List.insertionSort` with the same ordering. -/
def processRepos (data : List RepoRec) (count : Nat) : List RepoRec :=
  ((data.filter fun r => !r.fork).insertionSort pushedDesc).take count

/-- The observable state of the `useGithubRepos` hook:
`repos`, `loading` and `error` from the three `useState` calls. -/
structure HookState where
  repos : List RepoRec
  loading : Bool
  error : Option String
deriving DecidableEq, Repr

/-- The initial hook state: `useState([])`, `useState(true)`, `useState(null)`. -/
def initialHookState : HookState := { repos := [], loading := true, error := none }

/-- The synchronous start of `load()`: `setLoading(true); setError(null)`. -/
def startLoad (s : HookState) : HookState := { s with loading := true, error := none }

/-- The error message thrown on a non-success response:
`throw new Error(`GitHub: ${resp.status}`)`. -/
def statusError (status : Nat) : String := "GitHub: " ++ toString status

/-- The completion of one `load()` call, with `alive` the value of the
closure's cancellation flag when the awaited result arrives.
Mirrors the `try`/`catch`/`finally` of `load()`:
on success the code checks `if (!alive) return;` before `setRepos(filtered)`
(the `finally` then skips `setLoading(false)` because `alive` is false);
on failure the `catch` runs `setError(e.message)` unconditionally, and the
`finally` runs `setLoading(false)` only when `alive` is still true. -/
def resolveFetch (alive : Bool) (result : Except String (List RepoRec))
    (count : Nat) (s : HookState) : HookState :=
  match result with
  | .ok data =>
      if alive then
        { repos := processRepos data count, loading := false, error := s.error }
      else s
  | .error msg =>
      { repos := s.repos
        loading := if alive then false else s.loading
        error := some msg }

/-- The per-node interaction state of `RepoNode`: the two `useState` values
`isDragging` and `dragDistance`. -/
structure NodeState where
  isDragging : Bool
  dragDistance : ℝ

/-- The initial node state: `useState(false)`, `useState(0)`. -/
def initNodeState : NodeState := { isDragging := false, dragDistance := 0 }

/-- `handleDragStart`: `setIsDragging(true); setDragDistance(0)`. -/
def handleDragStart (s : NodeState) : NodeState :=
  { s with isDragging := true, dragDistance := 0 }

/-- `handleDrag`: `setDragDistance(Math.sqrt(info.offset.x ** 2 + info.offset.y ** 2))`,
recomputed from the total offset since drag start on every move event. -/
noncomputable def handleDrag (ox oy : ℝ) (s : NodeState) : NodeState :=
  { s with dragDistance := Real.sqrt (ox * ox + oy * oy) }

/-- `handleDragEnd`: `setIsDragging(false)`; `dragDistance` is left untouched. -/
def handleDragEnd (s : NodeState) : NodeState := { s with isDragging := false }

/-- The condition under which `handleClick` cancels navigation:
`if (dragDistance > 5) { e.preventDefault(); e.stopPropagation(); }`. -/
def clickSuppressed (s : NodeState) : Prop := s.dragDistance > 5

/-- The pointer events a `RepoNode` reacts to. A `drag` event carries the
total offset of the pointer from the drag start. -/
inductive NodeEvent where
  | dragStart
  | drag (ox oy : ℝ)
  | dragEnd
  | click

/-- Dispatch of one event to the node's handlers; `click` leaves the state
unchanged (its only effect is the navigation decision `clickSuppressed`). -/
noncomputable def nodeStep (s : NodeState) : NodeEvent → NodeState
  | .dragStart => handleDragStart s
  | .drag ox oy => handleDrag ox oy s
  | .dragEnd => handleDragEnd s
  | .click => s

/-- Run a sequence of pointer events from a given node state. -/
noncomputable def runEvents (s : NodeState) (es : List NodeEvent) : NodeState :=
  es.foldl nodeStep s

/-- One full drag session: drag start, a list of move events (each carrying
the total offset from drag start at that moment), then release. -/
def dragSession (offs : List (ℝ × ℝ)) : List NodeEvent :=
  NodeEvent.dragStart :: ((offs.map fun p => NodeEvent.drag p.1 p.2) ++ [NodeEvent.dragEnd])

/-- The angle assigned to the node at index `i` of `repos` in
`RepoConstellation`: `(i / repos.length) * Math.PI * 2`. -/
noncomputable def repoAngle (i M : ℕ) : ℝ := ((i : ℝ) / (M : ℝ)) * Real.pi * 2

/-- The ring assigned to the node at index `i`: `i % 3`. -/
def repoRing (i : ℕ) : ℕ := i % 3

/-- The radial distance of the node at index `i`: `120 + ring * 50`. -/
noncomputable def repoDist (i : ℕ) : ℝ := 120 + (repoRing i : ℝ) * 50

/-- The position of the node at index `i` of `M` nodes:
`(Math.cos(angle) * dist, Math.sin(angle) * dist)`, relative to the
container's center. -/
noncomputable def repoPos (i M : ℕ) : ℝ × ℝ :=
  (Real.cos (repoAngle i M) * repoDist i, Real.sin (repoAngle i M) * repoDist i)

/-- The list of positions produced by `repos.map((r, i) => ...)` for a
repository list of length `M`. -/
noncomputable def layoutPositions (M : ℕ) : List (ℝ × ℝ) :=
  (List.range M).map fun i => repoPos i M

/-- Helper: running only drag-move events leaves `dragDistance` at the norm
of the last offset, or unchanged when there is no move event. -/
theorem runEvents_drags_dragDistance (offs : List (ℝ × ℝ)) (s : NodeState) :
    (runEvents s (offs.map fun p => NodeEvent.drag p.1 p.2)).dragDistance =
      (offs.getLast?.map fun p => Real.sqrt (p.1 * p.1 + p.2 * p.2)).getD s.dragDistance := by
  induction offs generalizing s with
  | nil => rfl
  | cons p rest ih =>
      cases rest with
      | nil => simp [runEvents, nodeStep, handleDrag]
      | cons q t =>
          have h := ih (handleDrag p.1 p.2 s)
          simp only [List.map_cons, runEvents, List.foldl_cons] at h ⊢
          rw [List.getLast?_cons_cons]
          exact h

/-- Helper: the drag distance recorded at the end of a full drag session is
the Euclidean norm of the last total offset (and `0` for a session with no
move events). -/
theorem dragSession_dragDistance (offs : List (ℝ × ℝ)) (s : NodeState) :
    (runEvents s (dragSession offs)).dragDistance =
      (offs.getLast?.map fun p => Real.sqrt (p.1 * p.1 + p.2 * p.2)).getD 0 := by
  have h := runEvents_drags_dragDistance offs (handleDragStart s)
  simp only [dragSession, runEvents, List.foldl_cons, List.foldl_append] at h ⊢
  simpa [nodeStep, handleDragEnd, handleDragStart] using h

/-- Claim C1: during a drag session the recorded displacement is the Euclidean
norm of the total pointer offset from drag start, recomputed from the offset on
every move event (not accumulated incrementally); on the click that follows
release, navigation is suppressed iff that displacement strictly exceeds 5:
displacements of 4 and of exactly 5 allow navigation, 6 suppresses it. -/
theorem drag_displacement_and_click_threshold :
    (∀ (s : NodeState) (ox oy : ℝ),
        (handleDrag ox oy s).dragDistance = Real.sqrt (ox * ox + oy * oy))
  ∧ (∀ (s : NodeState) (offs : List (ℝ × ℝ)),
        (runEvents s (dragSession offs)).dragDistance =
          (offs.getLast?.map fun p => Real.sqrt (p.1 * p.1 + p.2 * p.2)).getD 0)
  ∧ (∀ s : NodeState, clickSuppressed s ↔ 5 < s.dragDistance)
  ∧ (∀ s : NodeState, s.dragDistance = 4 → ¬ clickSuppressed s)
  ∧ (∀ s : NodeState, s.dragDistance = 5 → ¬ clickSuppressed s)
  ∧ (∀ s : NodeState, s.dragDistance = 6 → clickSuppressed s) := by
  refine ⟨fun s ox oy => rfl,
          fun s offs => dragSession_dragDistance offs s,
          fun s => Iff.rfl, ?_, ?_, ?_⟩
  · intro s h
    unfold clickSuppressed
    rw [h]
    norm_num
  · intro s h
    unfold clickSuppressed
    rw [h]
    norm_num
  · intro s h
    unfold clickSuppressed
    rw [h]
    norm_num

/-- Witness for C1 at the displacements 4, 5 and 6. -/
theorem drag_displacement_and_click_threshold_witness :
    ¬ clickSuppressed { isDragging := false, dragDistance := 4 }
  ∧ ¬ clickSuppressed { isDragging := false, dragDistance := 5 }
  ∧ clickSuppressed { isDragging := false, dragDistance := 6 } :=
  ⟨drag_displacement_and_click_threshold.2.2.2.1 _ rfl,
   drag_displacement_and_click_threshold.2.2.2.2.1 _ rfl,
   drag_displacement_and_click_threshold.2.2.2.2.2 _ rfl⟩

/-- Counterexample for C7: after the drag session with a single move to total
offset (6, 0), the recorded displacement on drag end is still 6 (it is not
destroyed), and a plain tap that follows (a click with no new drag start)
finds `clickSuppressed` true, so it does not navigate. -/
theorem tap_after_drag_suppressed_cex :
    (runEvents initNodeState
        [NodeEvent.dragStart, NodeEvent.drag 6 0, NodeEvent.dragEnd]).dragDistance = 6
  ∧ clickSuppressed (runEvents initNodeState
        [NodeEvent.dragStart, NodeEvent.drag 6 0, NodeEvent.dragEnd]) := by
  have h6 : Real.sqrt (6 * 6 + 0 * 0) = 6 := by
    rw [show (6 * 6 + 0 * 0 : ℝ) = 6 ^ 2 by norm_num]
    exact Real.sqrt_sq (by norm_num)
  have hs : (runEvents initNodeState
      [NodeEvent.dragStart, NodeEvent.drag 6 0, NodeEvent.dragEnd]).dragDistance =
      Real.sqrt (6 * 6 + 0 * 0) := rfl
  refine ⟨hs.trans h6, ?_⟩
  show (5 : ℝ) < _
  rw [hs, h6]
  norm_num

/-- Claim C7 (amended): a drag whose displacement exceeds 5 suppresses the
click of its own pointer cycle, but the recorded displacement survives drag
end and is only reset by the next drag start; hence a click is suppressed iff
the last recorded displacement exceeds 5, and a tap that begins a fresh drag
session whose offsets all stay within 5 units navigates, whatever came before. -/
theorem drag_click_disambiguation_amended :
    (∀ s : NodeState, (handleDragEnd s).dragDistance = s.dragDistance)
  ∧ (∀ s : NodeState, (handleDragStart s).dragDistance = 0)
  ∧ (∀ s : NodeState, 5 < s.dragDistance → clickSuppressed s)
  ∧ (∀ s : NodeState, s.dragDistance ≤ 5 → ¬ clickSuppressed s)
  ∧ (∀ (s : NodeState) (offs : List (ℝ × ℝ)),
        (∀ p ∈ offs, Real.sqrt (p.1 * p.1 + p.2 * p.2) ≤ 5) →
        ¬ clickSuppressed (runEvents s (dragSession offs))) := by
  refine ⟨fun s => rfl, fun s => rfl, fun s h => h, fun s h => not_lt.mpr h, ?_⟩
  intro s offs h
  unfold clickSuppressed
  rw [dragSession_dragDistance offs s]
  cases hoffs : offs.getLast? with
  | none => simp
  | some p =>
      have hp : Real.sqrt (p.1 * p.1 + p.2 * p.2) ≤ 5 :=
        h p (List.mem_of_mem_getLast? hoffs)
      simpa using not_lt.mpr hp

/-- Witness for the amended C7: from a node state carrying displacement 9
from an earlier drag, a fresh (empty-offset) drag session resets the
displacement, and the following click navigates. -/
theorem drag_click_disambiguation_amended_witness :
    ¬ clickSuppressed
        (runEvents { isDragging := false, dragDistance := 9 } (dragSession [])) :=
  drag_click_disambiguation_amended.2.2.2.2 _ []
    (fun p hp => absurd hp (List.not_mem_nil p))

/-- Claim C5: for a repository list of length `M` and zero-based index
`i < M`, the layout assigns entry `i` the angle `(i / M) * 2π`, the ring
`i % 3`, the radial distance `120 + (i % 3) * 50`, and the position
`(distance * cos(angle), distance * sin(angle))` relative to the fixed
center; identical inputs always yield the identical position. -/
theorem radial_layout_formula (M i : ℕ) (h : i < M) :
    (layoutPositions M)[i]? =
      some (repoDist i * Real.cos (repoAngle i M), repoDist i * Real.sin (repoAngle i M))
  ∧ repoAngle i M = ((i : ℕ) : ℝ) / ((M : ℕ) : ℝ) * Real.pi * 2
  ∧ repoRing i = i % 3
  ∧ repoDist i = 120 + ((i % 3 : ℕ) : ℝ) * 50
  ∧ (∀ j N : ℕ, j = i → N = M → repoPos j N = repoPos i M) := by
  refine ⟨?_, rfl, rfl, rfl, ?_⟩
  · rw [layoutPositions, List.getElem?_map, List.getElem?_range h]
    simp [repoPos, mul_comm]
  · intro j N hj hN
    rw [hj, hN]

/-- Witness for C5 at index 1 of 4 entries. -/
theorem radial_layout_formula_witness :
    1 < 4
  ∧ ((layoutPositions 4)[1]? =
      some (repoDist 1 * Real.cos (repoAngle 1 4), repoDist 1 * Real.sin (repoAngle 1 4))
  ∧ repoAngle 1 4 = ((1 : ℕ) : ℝ) / ((4 : ℕ) : ℝ) * Real.pi * 2
  ∧ repoRing 1 = 1 % 3
  ∧ repoDist 1 = 120 + ((1 % 3 : ℕ) : ℝ) * 50
  ∧ (∀ j N : ℕ, j = 1 → N = 4 → repoPos j N = repoPos 1 4)) :=
  ⟨by norm_num, radial_layout_formula 4 1 (by norm_num)⟩

/-- Claim C8: with 6 entries and 3 rings, the entries at indices 0 and 3
share a ring and a radial distance, and sit at angles 0 and π: positions
`(repoDist 0, 0)` and `(-repoDist 3, 0)`, on opposite sides of the circle. -/
theorem opposite_nodes_six_entries :
    repoRing 0 = repoRing 3
  ∧ repoDist 0 = repoDist 3
  ∧ repoAngle 0 6 = 0
  ∧ repoAngle 3 6 = Real.pi
  ∧ repoPos 0 6 = (repoDist 0, 0)
  ∧ repoPos 3 6 = (-repoDist 3, 0) := by
  have h0 : repoAngle 0 6 = 0 := by
    rw [repoAngle]
    norm_num
  have h3 : repoAngle 3 6 = Real.pi := by
    rw [repoAngle]
    push_cast
    ring_nf
  refine ⟨rfl, rfl, h0, h3, ?_, ?_⟩
  · rw [repoPos, h0]
    simp
  · rw [repoPos, h3]
    simp

/-- Claim C9: the layout of an empty repository list is the empty position
list (the angle formula is never evaluated), and the layout is total: it
produces exactly one position per entry for every sequence length. -/
theorem layout_total_and_empty :
    layoutPositions 0 = [] ∧ ∀ M : ℕ, (layoutPositions M).length = M := by
  constructor
  · rfl
  · intro M
    simp [layoutPositions]

/-- Example record with pushed timestamp T1 = 2024-01-01 (claim C2). -/
def exRecT1 : RepoRec :=
  { id := 1, name := "t1", description := none, stargazers_count := 0,
    fork := false, pushed_at := 20240101, html_url := "u1" }

/-- Example record with pushed timestamp T2 = 2024-06-01 (claim C2). -/
def exRecT2 : RepoRec :=
  { id := 2, name := "t2", description := none, stargazers_count := 0,
    fork := false, pushed_at := 20240601, html_url := "u2" }

/-- Example record with pushed timestamp T3 = 2023-01-01 (claim C2). -/
def exRecT3 : RepoRec :=
  { id := 3, name := "t3", description := none, stargazers_count := 0,
    fork := false, pushed_at := 20230101, html_url := "u3" }

/-- Claim C2: the published output has length `min N (n - k)` (the number of
non-fork records capped at the display maximum) and is sorted by pushed
timestamp descending; for pushed timestamps [T1, T2, T3] with T3 < T1 < T2
and N = 2 the output is [T2, T1]. -/
theorem fetch_rank_and_truncate :
    (∀ (data : List RepoRec) (N : Nat),
        (processRepos data N).length = min N (data.filter fun r => !r.fork).length
      ∧ List.Sorted pushedDesc (processRepos data N))
  ∧ processRepos [exRecT1, exRecT2, exRecT3] 2 = [exRecT2, exRecT1] := by
  refine ⟨fun data N => ⟨?_, ?_⟩, by decide⟩
  · simp [processRepos, List.length_take, List.length_insertionSort]
  · exact List.Pairwise.sublist (List.take_sublist N _)
      (List.sorted_insertionSort pushedDesc _)

/-- Thirteen non-fork records, pushed at times 0..12 (counterexample for C3:
one more non-fork record than the display maximum 12 used by the program). -/
def cexRepoList : List RepoRec :=
  (List.range 13).map fun i =>
    { id := i, name := "r", description := none, stargazers_count := 0,
      fork := false, pushed_at := i, html_url := "u" }

/-- The oldest of the thirteen records (pushed at time 0). -/
def cexOldest : RepoRec :=
  { id := 0, name := "r", description := none, stargazers_count := 0,
    fork := false, pushed_at := 0, html_url := "u" }

/-- A fork-flagged record (used to witness the amended C3). -/
def cexForkRec : RepoRec :=
  { id := 99, name := "f", description := none, stargazers_count := 0,
    fork := true, pushed_at := 5, html_url := "uf" }

/-- Counterexample for C3: with 13 non-fork records (and no forks, `k = 0`)
and the program's display maximum `N = 12`, the oldest non-fork record is in
the input but not in the published output, so the output does not contain all
`n - k` non-fork records. -/
theorem fork_filter_containment_cex :
    cexOldest.fork = false
  ∧ cexOldest ∈ cexRepoList
  ∧ (cexRepoList.filter fun r => !r.fork).length = 13
  ∧ cexOldest ∉ processRepos cexRepoList 12 := by decide

/-- Claim C3 (amended): the published output always excludes every
fork-flagged record, and whenever the number `n - k` of non-fork records does
not exceed the display maximum `N`, a record is in the output exactly when it
is a non-fork record of the input. -/
theorem fork_filter_correctness_amended :
    (∀ (data : List RepoRec) (N : Nat) (r : RepoRec),
        r ∈ processRepos data N → r.fork = false)
  ∧ (∀ (data : List RepoRec) (N : Nat),
        (data.filter fun r => !r.fork).length ≤ N →
        ∀ r : RepoRec, r ∈ processRepos data N ↔ r ∈ data ∧ r.fork = false) := by
  constructor
  · intro data N r hr
    have h1 : r ∈ (data.filter fun x => !x.fork).insertionSort pushedDesc :=
      (List.take_sublist N _).subset hr
    have h2 := List.mem_filter.1 ((List.mem_insertionSort pushedDesc).1 h1)
    simpa using h2.2
  · intro data N hN r
    have hlen : ((data.filter fun x => !x.fork).insertionSort pushedDesc).length ≤ N := by
      rwa [List.length_insertionSort]
    rw [processRepos, List.take_of_length_le hlen, List.mem_insertionSort,
      List.mem_filter]
    simp

/-- Witness for the amended C3 on a two-record list (one fork, one not) with
display maximum 5. -/
theorem fork_filter_correctness_amended_witness :
    (List.filter (fun r => !r.fork) [cexForkRec, cexOldest]).length ≤ 5
  ∧ (cexOldest ∈ processRepos [cexForkRec, cexOldest] 5 ↔
      cexOldest ∈ [cexForkRec, cexOldest] ∧ cexOldest.fork = false) :=
  ⟨by decide,
   fork_filter_correctness_amended.2 [cexForkRec, cexOldest] 5 (by decide) cexOldest⟩

/-- Claim C4, with the code evaluated at the failing input: a superseded
fetch (`alive = false`) whose result is a failure still mutates the
observable hook state — the `catch` branch stores the error message without
consulting the `alive` flag — even though a superseded successful result is
correctly ignored. -/
theorem stale_failure_mutates_state :
    resolveFetch false (Except.error (statusError 500)) 12
        { repos := [], loading := false, error := none } ≠
      { repos := [], loading := false, error := none }
  ∧ (resolveFetch false (Except.error (statusError 500)) 12
        { repos := [], loading := false, error := none }).error = some "GitHub: 500"
  ∧ (∀ (d : List RepoRec) (c : Nat) (s : HookState),
        resolveFetch false (Except.ok d) c s = s) :=
  ⟨by decide, by decide, fun d c s => rfl⟩

/-- Claim C6: a fetch that terminates in failure while the hook is live, from
the freshly-started loading state, yields exactly the error state carrying a
single message with loading cleared and no repositories published (so no
stale repository set accompanies the error); the non-success case carries the
status code in its message, and a failing fetch never alters the repository
set. -/
theorem fetch_failure_state :
    (∀ (msg : String) (count : Nat),
        resolveFetch true (Except.error msg) count (startLoad initialHookState) =
          { repos := [], loading := false, error := some msg })
  ∧ (∀ status : Nat, statusError status = "GitHub: " ++ toString status)
  ∧ (∀ (alive : Bool) (msg : String) (count : Nat) (s : HookState),
        (resolveFetch alive (Except.error msg) count s).repos = s.repos) :=
  ⟨fun _ _ => rfl, fun _ => rfl, fun _ _ _ _ => rfl⟩

/-- Helper: the stable sort preserves the relative order of records with any
fixed pushed timestamp exactly. -/
theorem insertionSort_pushedDesc_stable (l : List RepoRec) (t : Nat) :
    (l.insertionSort pushedDesc).filter (fun r => r.pushed_at == t) =
      l.filter fun r => r.pushed_at == t := by
  have hpair : (l.filter fun r => r.pushed_at == t).Pairwise pushedDesc := by
    apply List.pairwise_of_forall_mem_list
    intro a ha b hb
    have ha' : a.pushed_at = t := by simpa using (List.mem_filter.1 ha).2
    have hb' : b.pushed_at = t := by simpa using (List.mem_filter.1 hb).2
    unfold pushedDesc
    rw [ha', hb']
  have hsub : (l.filter fun r => r.pushed_at == t).Sublist
      (l.insertionSort pushedDesc) :=
    List.sublist_insertionSort hpair (List.filter_sublist l)
  have hidem : ((l.filter fun r => r.pushed_at == t).filter
      fun r => r.pushed_at == t) = l.filter fun r => r.pushed_at == t :=
    List.filter_eq_self.mpr fun a ha => (List.mem_filter.1 ha).2
  have h1 : (l.filter fun r => r.pushed_at == t).Sublist
      ((l.insertionSort pushedDesc).filter fun r => r.pushed_at == t) := by
    have := hsub.filter fun r => r.pushed_at == t
    rwa [hidem] at this
  have hperm : ((l.insertionSort pushedDesc).filter fun r => r.pushed_at == t).Perm
      (l.filter fun r => r.pushed_at == t) :=
    (List.perm_insertionSort pushedDesc l).filter _
  exact (h1.eq_of_length hperm.length_eq.symm).symm

/-- Claim C10: the descending re-sort by pushed timestamp is stable — at the
sort stage, records sharing a pushed timestamp appear in exactly the input's
relative order, and in the published output (after the fork filter and the
truncation) they still appear as an order-preserving subsequence of the
provider's equal-timestamp records. -/
theorem pushed_sort_stable_on_ties :
    (∀ (l : List RepoRec) (t : Nat),
        (l.insertionSort pushedDesc).filter (fun r => r.pushed_at == t) =
          l.filter fun r => r.pushed_at == t)
  ∧ (∀ (data : List RepoRec) (N t : Nat),
        ((processRepos data N).filter fun r => r.pushed_at == t).Sublist
          (data.filter fun r => r.pushed_at == t)) := by
  refine ⟨insertionSort_pushedDesc_stable, ?_⟩
  intro data N t
  have h1 : (processRepos data N).Sublist
      ((data.filter fun r => !r.fork).insertionSort pushedDesc) :=
    List.take_sublist N _
  have h2 := h1.filter fun r => r.pushed_at == t
  rw [insertionSort_pushedDesc_stable] at h2
  exact h2.trans ((List.filter_sublist data).filter _)
